import Mathlib

/-!
Verification of the multi-column block engine
(`src/processors/MultiColumnProcessor.ts` of obsidian-multi-column).

The TypeScript code is shallowly embedded: JS strings become `String`
(lists of characters; JS UTF-16 code-unit indexing coincides with
character indexing for the inputs at issue), JS numbers used as counts
become `Int` (exact; JS doubles agree on every value exercised here),
JS numbers used as widths become `Rat` (exact rationals; the float
rounding error of doubles is far below the 1-percentage-point threshold
the code compares against), JS `undefined` array holes become `none` in
`List (Option String)`, and sparse-array writes are modelled by
`jsSetIndexN` below.
-/

namespace MultiColumn

/-! ### JS string primitives -/

/-- `pat` is a prefix of the second list (model of `String.prototype.startsWith`
at a given offset). -/
def leadsWith : List Char → List Char → Bool
  | [], _ => true
  | _ :: _, [] => false
  | p :: ps, c :: cs => p == c && leadsWith ps cs

/-- Model of `String.prototype.split(sep)` for a one-character separator,
on character lists.  `splitSepData sep d` is never `[]`. -/
def splitSepData (sep : Char) : List Char → List (List Char)
  | [] => [[]]
  | c :: cs =>
    let r := splitSepData sep cs
    if c = sep then [] :: r
    else (c :: r.headD []) :: r.tail

/-- `String.prototype.split(sep)` for a one-character separator. -/
def jsSplit (sep : Char) (s : String) : List String :=
  (splitSepData sep s.data).map fun l => ⟨l⟩

/-- Join with a separator between consecutive segments (inverse of split). -/
def intercalSep (sep : Char) : List (List Char) → List Char
  | [] => []
  | [l] => l
  | l :: ls => l ++ sep :: intercalSep sep ls

/-- Join with a separator after every segment. -/
def joinAllSep (sep : Char) (L : List (List Char)) : List Char :=
  (L.map (· ++ [sep])).flatten

/-- The whitespace characters stripped by `String.prototype.trim`
(restricted to the ASCII ones; the sources never contain the Unicode ones). -/
def jsWhitespaceChar (c : Char) : Bool :=
  c == ' ' || c == '\t' || c == '\n' || c == '\r' || c == '\x0b' || c == '\x0c'

def trimData (l : List Char) : List Char :=
  ((l.dropWhile jsWhitespaceChar).reverse.dropWhile jsWhitespaceChar).reverse

/-- Model of `String.prototype.trim`. -/
def jsTrim (s : String) : String := ⟨trimData s.data⟩

def isDecDigit (c : Char) : Bool := decide ('0' ≤ c) && decide (c ≤ '9')

def isHexDigit (c : Char) : Bool :=
  isDecDigit c || (decide ('a' ≤ c) && decide (c ≤ 'f')) || (decide ('A' ≤ c) && decide (c ≤ 'F'))

def digitVal (c : Char) : Nat := c.toNat - '0'.toNat

def hexDigitVal (c : Char) : Nat :=
  if isDecDigit c then digitVal c
  else if decide ('a' ≤ c) && decide (c ≤ 'f') then c.toNat - 'a'.toNat + 10
  else c.toNat - 'A'.toNat + 10

/-- Value of a string of decimal digits. -/
def decValData (l : List Char) : Nat := l.foldl (fun a c => 10 * a + digitVal c) 0

def hexValData (l : List Char) : Nat := l.foldl (fun a c => 16 * a + hexDigitVal c) 0

/-- Model of the global `parseInt(s)` with no radix argument: skip leading
whitespace, optional sign, auto-detected hexadecimal `0x` prefix, otherwise
the maximal decimal-digit prefix; `none` models `NaN`.  (Exact integers;
JS doubles lose precision only beyond 2^53, far outside the inputs here.) -/
def jsParseInt (s : String) : Option Int :=
  let l0 := s.data.dropWhile jsWhitespaceChar
  let sgn : Int := if l0.head? = some '-' then -1 else 1
  let l1 := if l0.head? = some '-' ∨ l0.head? = some '+' then l0.tail else l0
  -- the `0x`/`0X` prefix selects hexadecimal
  if l1.head? = some '0' ∧ (l1.tail.head? = some 'x' ∨ l1.tail.head? = some 'X') then
    let ds := l1.tail.tail.takeWhile isHexDigit
    if ds.isEmpty then none else some (sgn * (hexValData ds : Int))
  else
    let ds := l1.takeWhile isDecDigit
    if ds.isEmpty then none else some (sgn * (decValData ds : Int))

/-- `parseInt(value) || 2` (line 33 of the source): `NaN` is falsy, and so is
`0` (and `-0`), hence both fall back to the default column count 2. -/
def parseIntOr2 : Option Int → Int
  | some n => if n = 0 then 2 else n
  | none => 2

/-- Model of the global `parseFloat(s)`: skip leading whitespace, optional
sign, decimal digits with optional fraction and optional exponent; `none`
models `NaN`.  (`Infinity` literals never occur in the sources and are not
modelled.) -/
def jsParseFloat (s : String) : Option Rat :=
  let l := s.data.dropWhile jsWhitespaceChar
  let sl : Rat × List Char :=
    match l with
    | '-' :: t => (-1, t)
    | '+' :: t => (1, t)
    | _ => (1, l)
  let sgn := sl.1
  let l := sl.2
  let ipart := l.takeWhile isDecDigit
  let rest := l.dropWhile isDecDigit
  let fr : List Char × List Char :=
    match rest with
    | '.' :: t => (t.takeWhile isDecDigit, t.dropWhile isDecDigit)
    | _ => ([], rest)
  let fpart := fr.1
  let rest2 := fr.2
  if ipart.isEmpty && fpart.isEmpty then none
  else
    let mant : Rat := (decValData ipart : Rat) + (decValData fpart : Rat) / (10 : Rat) ^ fpart.length
    let e : Int :=
      match rest2 with
      | c :: t =>
        if c == 'e' || c == 'E' then
          let st : Int × List Char :=
            match t with
            | '-' :: u => (-1, u)
            | '+' :: u => (1, u)
            | _ => (1, t)
          let eds := st.2.takeWhile isDecDigit
          if eds.isEmpty then 0 else st.1 * (decValData eds : Int)
        else 0
      | [] => 0
    some (sgn * mant * (10 : Rat) ^ e)

/-- Model of `Number.prototype.toFixed(1)`: the integer `m` with `m / 10`
closest to the value, ties to the larger (ES spec), printed with one
fractional digit. -/
def toFixed1 (q : Rat) : String :=
  let m : Int := ⌊q * 10 + 1 / 2⌋
  let a := m.natAbs
  (if m < 0 then "-" else "") ++ toString (a / 10) ++ "." ++ toString (a % 10)

/-- Model of `Array.prototype.join(',')` on strings. -/
def joinComma : List String → String
  | [] => ""
  | [x] => x
  | x :: xs => x ++ "," ++ joinComma xs

/-- Does `suf` end the string (model of `String.prototype.endsWith`)? -/
def jsEndsWith (s suf : String) : Bool := leadsWith suf.data.reverse s.data.reverse

/-- Does `pre` begin the string (model of `String.prototype.startsWith`)? -/
def jsStartsWith (s pre : String) : Bool := leadsWith pre.data s.data

/-- First index at which `pat` occurs (model of `String.prototype.indexOf`,
with `none` for the `-1` result). -/
def firstIdxData (pat : List Char) : List Char → Option Nat
  | [] => if leadsWith pat [] then some 0 else none
  | c :: t => if leadsWith pat (c :: t) then some 0 else (firstIdxData pat t).map (· + 1)

def jsIndexOf (hay pat : String) : Option Nat := firstIdxData pat.data hay.data

/-- `pat` occurs somewhere in `hay` (reference definition, used to state
claims independently of `jsIndexOf`). -/
def containsSubstrB (hay pat : String) : Bool := hay.data.tails.any (leadsWith pat.data)

/-! ### JS array primitives -/

/-- `arr.splice(i, 1)` (removal part): removes the element at `i` when in
range, otherwise removes nothing. -/
def jsSpliceRemove1 {α : Type} (l : List α) (i : Nat) : List α :=
  l.take i ++ l.drop (i + 1)

/-- `arr.splice(i, 0, a)`: inserts `a` at `i`, clamped to the array end. -/
def jsSpliceInsert {α : Type} (l : List α) (i : Nat) (a : α) : List α :=
  l.take i ++ a :: l.drop i

/-- `arr[i] = v` on a possibly-sparse JS array: in-range writes update in
place, past-the-end writes extend the array with holes (`none`). -/
def jsSetIndexN {α : Type} (l : List (Option α)) (i : Nat) (v : α) : List (Option α) :=
  if i < l.length then l.set i (some v)
  else l ++ List.replicate (i - l.length) none ++ [some v]

/-- `arr[i]` for an `Int` index: holes and out-of-range reads give
`none` (JS `undefined`); negative indices are plain properties, never
array elements. -/
def jsGetIndexI {α : Type} (l : List (Option α)) (i : Int) : Option α :=
  if i < 0 then none else ((l.get? i.toNat).getD none)

/-- `arr[i] = v` for an `Int` index.  A negative index would store a
non-index property, invisible to all array operations the code uses, so it
is modelled as a no-op (the code only ever writes at `currentColumn ≥ 0`). -/
def jsSetIndexI {α : Type} (l : List (Option α)) (i : Int) (v : α) : List (Option α) :=
  if i < 0 then l else jsSetIndexN l i.toNat v

/-- `arr.slice(0, e)` with a possibly negative end index. -/
def jsSlice0 {α : Type} (l : List α) (e : Int) : List α :=
  if e < 0 then l.take (l.length - (-e).toNat) else l.take e.toNat

/-! ### Data model (`parseConfigAndContent`, lines 16–65 of the source) -/

/-- The `config` object built by `parseConfigAndContent`.  The source
initializes it to `{ columns: 2, columnWidths: [50.0, 50.0] }`; in
particular `columnWidths` is always an array (never absent), and
`hasExplicitColumnWidths` is set when a `columnWidths:` header is parsed
(the field is never read anywhere in the repository). -/
structure PConfig where
  columns : Int
  columnWidths : List Rat
  hasExplicitColumnWidths : Bool
deriving DecidableEq, Repr

/-- A parsed block: the `config` together with the `columnContents` array.
Entries are `Option String` because the source builds `columnContents` as a
sparse JS array: a column whose marker is never followed by a content line
stays `undefined` (`none`). -/
structure BlockInstance where
  config : PConfig
  columnContents : List (Option String)
deriving DecidableEq, Repr

/-- The column texts as every consumer of `columnContents` sees them: the
source reads entries with `?? ''` / `|| ''` or skips falsy values, so a
hole (`undefined`) is indistinguishable from the empty string. -/
def columnTexts (l : List (Option String)) : List String :=
  l.map fun o => o.getD ""

/-- `content.replace(/\n{3,}$/, '\n\n')` (line 55): collapse three or more
trailing newlines to exactly two. -/
def collapseTrailing (s : String) : String :=
  let r := s.data.reverse
  let k := (r.takeWhile fun c => c == '\n').length
  if 3 ≤ k then ⟨(r.dropWhile fun c => c == '\n').reverse ++ ['\n', '\n']⟩ else s

/-- The loop state of `parseConfigAndContent` (lines 19–26). -/
structure ParseState where
  config : PConfig
  columnContents : List (Option String)
  currentColumn : Int
  inColumnSection : Bool
deriving DecidableEq, Repr

def initParseState : ParseState :=
  { config := { columns := 2, columnWidths := [50, 50], hasExplicitColumnWidths := false }
    columnContents := []
    currentColumn := -1
    inColumnSection := false }

/-- JS truthiness of the destructured `value` (`undefined` and `''` are falsy). -/
def jsTruthy : Option String → Bool
  | some s => !(s == "")
  | none => false

/-- One iteration of the `for (const line of lines)` loop (lines 28–49). -/
def parseStep (st : ParseState) (line : String) : ParseState :=
  if line.data.contains ':' && !st.inColumnSection then
    -- const [key, value] = line.split(':').map(s => s.trim());
    let parts := (jsSplit ':' line).map jsTrim
    let key := parts.headD ""
    let value := parts.get? 1
    if key == "columns" && jsTruthy value then
      { st with config := { st.config with
          columns := parseIntOr2 (jsParseInt (value.getD "")) } }
    else if key == "columnWidths" && jsTruthy value then
      { st with config := { st.config with
          columnWidths :=
            ((jsSplit ',' (value.getD "")).map fun w => jsParseFloat (jsTrim w)).reduceOption
          hasExplicitColumnWidths := true } }
    else st
  else if jsStartsWith line "===column===" then
    { st with inColumnSection := true, currentColumn := st.currentColumn + 1 }
  else if st.inColumnSection then
    { st with columnContents :=
        (jsSetIndexI st.columnContents st.currentColumn
          (((jsGetIndexI st.columnContents st.currentColumn).getD "") ++ line ++ "\n")) }
  else st

/-- The body of the cleanup `forEach` (lines 52–57) on one entry: holes are
skipped by `forEach` and `''` is falsy, so only nonempty contents are
collapsed. -/
def collapseEntry (o : Option String) : Option String :=
  o.map fun c => if c == "" then c else collapseTrailing c

/-- `parseConfigAndContent` (lines 16–65): split into lines, run the loop,
collapse excessive trailing newlines of each (truthy) content, then pad
with `''` columns up to `config.columns`. -/
def parseConfigAndContent (source : String) : BlockInstance :=
  let st := (jsSplit '\n' source).foldl parseStep initParseState
  let collapsed := st.columnContents.map collapseEntry
  { config := st.config
    columnContents :=
      collapsed ++ List.replicate (st.config.columns.toNat - collapsed.length) (some "") }

/-! ### Serializer (`updateSourceInFile`, lines 583–613 of the source)

The method first calls `updateColumnWidthsInConfig()`, which reads rendered
DOM geometry (modelled separately below); the remainder is the pure
serializer modelled here. -/

/-- Lines 587–594: pad `columnContents` with `''` up to `config.columns`,
then truncate with `slice(0, columns)` if longer. -/
def padTruncateContents (l : List (Option String)) (n : Int) : List (Option String) :=
  let l2 := l ++ List.replicate (n.toNat - l.length) (some "")
  if (l2.length : Int) > n then jsSlice0 l2 n else l2

/-- The body of the `columnContents.forEach` emission loop (lines 604–610):
emit the `===column===` marker line, then the content when it is truthy,
ensuring it ends with a newline. -/
def serializeColumnStep (acc : String) (content : Option String) : String :=
  let acc := acc ++ "===column===\n"
  match content with
  | none => acc
  | some c =>
    if c == "" then acc
    else acc ++ c ++ (if jsEndsWith c "\n" then "" else "\n")

/-- Lines 596–611: emit the `columns:` header, the `columnWidths:` header
(`this.config.columnWidths` is always an array, and arrays are truthy, so
the line is always emitted), one `===column===` marker per column followed
by its truthy content (newline-terminated), and strip one final newline
(`replace(/\n$/, '')`). -/
def updateSourceInFile (b : BlockInstance) : String :=
  let contents := padTruncateContents b.columnContents b.config.columns
  let s0 := "columns: " ++ toString b.config.columns ++ "\n"
  let s1 := s0 ++ "columnWidths: " ++ joinComma (b.config.columnWidths.map toFixed1) ++ "\n"
  let s2 := contents.foldl serializeColumnStep s1
  if jsEndsWith s2 "\n" then ⟨s2.data.dropLast⟩ else s2

/-! ### Mutation operations (`MultiColumnRenderChild`) -/

/-- `removeColumn` (lines 437–447): no-op when `columns <= 1`, else splice
out the content at `columnIndex`, decrement the count and reset the widths
to the equal split of the new count. -/
def removeColumn (b : BlockInstance) (columnIndex : Nat) : BlockInstance :=
  if b.config.columns ≤ 1 then b
  else
    let contents := jsSpliceRemove1 b.columnContents columnIndex
    let columns := b.config.columns - 1
    let newColumnWidth : Rat := 100 / (columns : Rat)
    { config := { b.config with
        columns := columns
        columnWidths := List.replicate columns.toNat newColumnWidth }
      columnContents := contents }

inductive AddPos | left | right
deriving DecidableEq, Repr

/-- `addColumn` (lines 449–460): insert an empty content at `columnIndex`
(`left`) or `columnIndex + 1` (`right`), increment the count and reset the
widths to the equal split of the new count. -/
def addColumn (b : BlockInstance) (columnIndex : Nat) (position : AddPos) : BlockInstance :=
  let insertIndex := match position with
    | AddPos.left => columnIndex
    | AddPos.right => columnIndex + 1
  let contents := jsSpliceInsert b.columnContents insertIndex (some "")
  let columns := b.config.columns + 1
  let newColumnWidth : Rat := 100 / (columns : Rat)
  { config := { b.config with
      columns := columns
      columnWidths := List.replicate columns.toNat newColumnWidth }
    columnContents := contents }

/-- `reorderColumn` (lines 545–560): move the content from `fromIndex` to
`toIndex` by remove-then-insert splices; when the widths array is long
enough (`columnWidths` is always an array, hence always truthy, so the
guard is just the length test) apply the same move to the widths. -/
def reorderColumn (b : BlockInstance) (fromIndex toIndex : Nat) : BlockInstance :=
  let movedContent := ((b.columnContents.get? fromIndex).getD none).getD ""
  let contents := jsSpliceInsert (jsSpliceRemove1 b.columnContents fromIndex) toIndex
    (some movedContent)
  let widths :=
    if b.config.columnWidths.length > max fromIndex toIndex then
      let movedWidth := (b.config.columnWidths.get? fromIndex).getD 0
      jsSpliceInsert (jsSpliceRemove1 b.config.columnWidths fromIndex) toIndex movedWidth
    else b.config.columnWidths
  { config := { b.config with columnWidths := widths }, columnContents := contents }

/-- The commit in `closeOverlay` (line 426):
`this.columnContents[this.currentEditIndex] = this.currentEditValue`. -/
def setColumnContent (b : BlockInstance) (i : Nat) (v : String) : BlockInstance :=
  { b with columnContents := jsSetIndexN b.columnContents i v }

/-- `updateColumnWidthsInConfig` (lines 615–643), decision part.  The
measured per-column percentages (rendered widths read from the DOM and
rounded to one decimal) are taken as the input `widths`; the config is
updated only when some entry differs from the equal split by more than one
percentage point, and is otherwise left untouched. -/
def updateColumnWidthsInConfig (widths : List Rat) (config : PConfig) : PConfig :=
  let equalWidth : Rat := 100 / (config.columns : Rat)
  let hasCustomWidths := widths.any fun w => decide (|w - equalWidth| > 1)
  if hasCustomWidths then { config with columnWidths := widths } else config

/-- ` ```multi-column\n` + source + `\n``` ` (lines 653–656). -/
def wrapBlock (s : String) : String := "```multi-column\n" ++ s ++ "\n```"

/-- `updateCodeBlockInFile` (lines 645–679), effect on the document text:
replace the first occurrence of the wrapped original block with the wrapped
new block; when the original block does not occur verbatim, do nothing. -/
def updateCodeBlockInFile (content originalSource newSource : String) : String :=
  let newBlock := wrapBlock newSource
  let originalBlock := wrapBlock originalSource
  match jsIndexOf content originalBlock with
  | none => content
  | some i => ⟨content.data.take i ++ newBlock.data ++ content.data.drop (i + originalBlock.data.length)⟩

/-! ### Bridging lemmas for the JS array operations -/

theorem jsSpliceRemove1_eq_eraseIdx {α : Type} (l : List α) (i : Nat) :
    jsSpliceRemove1 l i = l.eraseIdx i := by
  rw [jsSpliceRemove1, List.eraseIdx_eq_take_drop_succ]

theorem jsSpliceInsert_eq_insertIdx {α : Type} (l : List α) (i : Nat) (a : α)
    (h : i ≤ l.length) : jsSpliceInsert l i a = l.insertIdx i a := by
  induction l generalizing i with
  | nil =>
    have hi : i = 0 := Nat.le_zero.mp h
    subst hi
    rfl
  | cons b t ih =>
    cases i with
    | zero => rfl
    | succ j =>
      simp only [jsSpliceInsert, List.take_succ_cons, List.drop_succ_cons,
        List.insertIdx_succ_cons, List.cons_append, List.cons.injEq, true_and]
      exact ih j (Nat.le_of_succ_le_succ h)

theorem firstIdxData_eq_none_iff (pat l : List Char) :
    firstIdxData pat l = none ↔ l.tails.any (leadsWith pat) = false := by
  induction l with
  | nil =>
    simp only [firstIdxData, List.tails, List.any_cons, List.any_nil, Bool.or_false]
    by_cases h : leadsWith pat [] = true <;> simp [h]
  | cons c t ih =>
    simp only [firstIdxData, List.tails, List.any_cons]
    by_cases h : leadsWith pat (c :: t) = true
    · simp [h]
    · simp only [Bool.not_eq_true] at h
      simp [h, Option.map_eq_none', ih]

theorem length_jsSpliceRemove1 {α : Type} (l : List α) (i : Nat) (h : i < l.length) :
    (jsSpliceRemove1 l i).length = l.length - 1 := by
  simp only [jsSpliceRemove1, List.length_append, List.length_take, List.length_drop]
  omega

theorem length_jsSpliceInsert {α : Type} (l : List α) (i : Nat) (a : α) :
    (jsSpliceInsert l i a).length = l.length + 1 := by
  simp only [jsSpliceInsert, List.length_append, List.length_take, List.length_cons,
    List.length_drop]
  omega

theorem length_jsSetIndexN {α : Type} (l : List (Option α)) (i : Nat) (v : α) :
    (jsSetIndexN l i v).length = max l.length (i + 1) := by
  simp only [jsSetIndexN]
  split
  · simp only [List.length_set]
    omega
  · simp only [List.length_append, List.length_replicate, List.length_cons, List.length_nil]
    omega

/-! ### The spec scenarios as concrete inputs -/

/-- Scenario A input of the spec. -/
def scenarioA : String := "columns: 3\n===column===\nA\n===column===\nB\n===column===\nC\n"

theorem toFixed1_fifty : toFixed1 50 = "50.0" := by
  simp only [toFixed1]
  norm_num
  decide

/-! ### Claims -/

/-- **C2**, counterexample.  On the Scenario A input the final `"\n"` of the
source produces a trailing empty line, which the parser appends (plus a
newline) to the third column: the parsed contents are
`["A\n", "B\n", "C\n\n"]`, not `["A\n", "B\n", "C\n"]` as the claim states. -/
theorem C2_counterexample :
    columnTexts (parseConfigAndContent scenarioA).columnContents ≠ ["A\n", "B\n", "C\n"] := by
  decide

/-- **C2**, amended.  Parsing Scenario A yields `config.columns = 3` and
contents `["A\n", "B\n", "C\n\n"]` (the trailing empty line of the input is
folded into the last column), and serializing the result back yields the
original input with the always-emitted default `columnWidths: 50.0,50.0`
header inserted — with the final newline present, since the one-newline
strip only cancels the extra newline gained by the last column. -/
theorem C2_amended :
    (parseConfigAndContent scenarioA).config.columns = 3 ∧
    columnTexts (parseConfigAndContent scenarioA).columnContents = ["A\n", "B\n", "C\n\n"] ∧
    updateSourceInFile (parseConfigAndContent scenarioA) =
      "columns: 3\ncolumnWidths: 50.0,50.0\n===column===\nA\n===column===\nB\n===column===\nC\n" := by
  refine ⟨by decide, by decide, ?_⟩
  have hb : parseConfigAndContent scenarioA =
      ⟨⟨3, [50, 50], false⟩, [some "A\n", some "B\n", some "C\n\n"]⟩ := by decide
  rw [hb]
  simp only [updateSourceInFile, List.map_cons, List.map_nil, toFixed1_fifty]
  decide

/-- **C3**, counterexample.  The parser initializes `config.columnWidths` to
the default `[50.0, 50.0]` and never resizes it to the declared column
count, so already on the input `"columns: 3"` the produced instance has a
present `columnWidths` of length 2 ≠ 3 = `columnCount`: the invariant does
not hold for the instance produced by parse on every input. -/
theorem C3_counterexample :
    (parseConfigAndContent "columns: 3").config.columnWidths.length ≠
      (parseConfigAndContent "columns: 3").config.columns.toNat := by
  decide

/-- The count invariant of the spec, transcribed on the model: the column
count is at least 1 and both `columnContents` and `columnWidths` have
exactly that many entries (`columnWidths` is never absent in the code, so
the "absent" disjunct of the claim is vacuous). -/
def CountInv (b : BlockInstance) : Prop :=
  1 ≤ b.config.columns ∧
  b.columnContents.length = b.config.columns.toNat ∧
  b.config.columnWidths.length = b.config.columns.toNat

instance : DecidablePred CountInv := fun b => by
  unfold CountInv
  infer_instance

/-- **C3**, amended.  The invariant `columns.length = columnCount =
columnWidths.length` does *not* hold for the output of parse on every input
(see the counterexample: parse leaves the default `[50, 50]` widths and
also never truncates extra columns), but each mutation operation does
preserve it, for in-range indices: remove, add, reorder, set-content and
set-widths all keep both lengths equal to the column count. -/
theorem C3_amended (b : BlockInstance) (h : CountInv b) :
    (∀ i, i < b.columnContents.length → CountInv (removeColumn b i)) ∧
    (∀ i pos, CountInv (addColumn b i pos)) ∧
    (∀ fi ti, fi < b.columnContents.length → ti < b.columnContents.length →
      CountInv (reorderColumn b fi ti)) ∧
    (∀ i v, i < b.columnContents.length → CountInv (setColumnContent b i v)) ∧
    (∀ ws : List Rat, ws.length = b.config.columns.toNat →
      CountInv { config := updateColumnWidthsInConfig ws b.config
                 columnContents := b.columnContents }) := by
  obtain ⟨h1, h2, h3⟩ := h
  refine ⟨?_, ?_, ?_, ?_, ?_⟩
  · intro i hi
    by_cases hc : b.config.columns ≤ 1
    · simpa [removeColumn, hc] using ⟨h1, h2, h3⟩
    · refine ⟨by simp [removeColumn, hc]; omega, ?_, ?_⟩
      · simp only [removeColumn, if_neg hc]
        rw [length_jsSpliceRemove1 _ _ hi]
        omega
      · simp only [removeColumn, if_neg hc, List.length_replicate]
  · intro i pos
    refine ⟨by simp [addColumn]; omega, ?_, ?_⟩
    · simp only [addColumn]
      rw [length_jsSpliceInsert]
      omega
    · simp only [addColumn, List.length_replicate]
  · intro fi ti hfi hti
    have hguard : b.config.columnWidths.length > max fi ti := by omega
    refine ⟨by simp [reorderColumn]; omega, ?_, ?_⟩
    · simp only [reorderColumn]
      rw [length_jsSpliceInsert, length_jsSpliceRemove1 _ _ hfi]
      omega
    · simp only [reorderColumn, if_pos hguard]
      rw [length_jsSpliceInsert, length_jsSpliceRemove1 _ _ (by omega)]
      omega
  · intro i v hi
    refine ⟨h1, ?_, h3⟩
    simp only [setColumnContent]
    rw [length_jsSetIndexN]
    omega
  · intro ws hws
    simp only [updateColumnWidthsInConfig]
    split
    · exact ⟨h1, h2, hws⟩
    · exact ⟨h1, h2, h3⟩

/-- Witness for C3's amended theorem on a concrete well-formed 2-column
instance. -/
theorem C3_amended_witness :
    CountInv ⟨⟨2, [50, 50], false⟩, [some "X", some "Y"]⟩ ∧
    ((∀ i, i < 2 → CountInv (removeColumn ⟨⟨2, [50, 50], false⟩, [some "X", some "Y"]⟩ i)) ∧
      CountInv (addColumn ⟨⟨2, [50, 50], false⟩, [some "X", some "Y"]⟩ 1 AddPos.right) ∧
      CountInv (reorderColumn ⟨⟨2, [50, 50], false⟩, [some "X", some "Y"]⟩ 0 1) ∧
      CountInv (setColumnContent ⟨⟨2, [50, 50], false⟩, [some "X", some "Y"]⟩ 0 "Z")) := by
  have h := C3_amended ⟨⟨2, [50, 50], false⟩, [some "X", some "Y"]⟩ (by decide)
  exact ⟨by decide, fun i hi => h.1 i hi, h.2.1 1 AddPos.right,
    h.2.2.1 0 1 (by decide) (by decide), h.2.2.2.1 0 "Z" (by decide)⟩

/-- **C4**, counterexample.  When no measured width differs from the equal
split by more than one point, the code leaves `config.columnWidths` at its
*previous* value rather than unsetting it: starting from custom widths
`[70, 30]` on a 2-column config, `updateColumnWidthsInConfig` with the
near-equal measurement `[50.05, 49.95]` keeps `columnWidths = [70, 30]` —
a present, non-equal-split value, contradicting "the custom-widths field is
left unset". -/
theorem C4_counterexample :
    (updateColumnWidthsInConfig [50.05, 49.95] ⟨2, [70, 30], true⟩).columnWidths = [70, 30] := by
  simp only [updateColumnWidthsInConfig, List.any_cons, List.any_nil]
  rw [if_neg (by norm_num [abs_le])]

/-- **C4**, amended.  Provided the given widths differ from the stored ones,
the widths are persisted verbatim *iff* some entry differs from the
equal-split baseline `100 / columnCount` by more than one percentage point;
otherwise the config is left entirely unchanged (the previously stored
`columnWidths` — a custom value or the parse default — is retained, never
unset). -/
theorem C4_amended (cfg : PConfig) (widths : List Rat) (hne : widths ≠ cfg.columnWidths) :
    ((updateColumnWidthsInConfig widths cfg).columnWidths = widths ↔
      ∃ w ∈ widths, |w - 100 / (cfg.columns : Rat)| > 1) ∧
    ((¬ ∃ w ∈ widths, |w - 100 / (cfg.columns : Rat)| > 1) →
      updateColumnWidthsInConfig widths cfg = cfg) := by
  have hany : (widths.any fun w => decide (|w - 100 / (cfg.columns : Rat)| > 1)) = true ↔
      ∃ w ∈ widths, |w - 100 / (cfg.columns : Rat)| > 1 := by
    simp [List.any_eq_true]
  constructor
  · constructor
    · intro h
      by_contra hno
      have : (widths.any fun w => decide (|w - 100 / (cfg.columns : Rat)| > 1)) = false := by
        rcases Bool.eq_false_or_eq_true
          (widths.any fun w => decide (|w - 100 / (cfg.columns : Rat)| > 1)) with ht | hf
        · exact absurd (hany.mp ht) hno
        · exact hf
      rw [updateColumnWidthsInConfig] at h
      simp only [this, Bool.false_eq_true, if_false] at h
      exact hne h.symm
    · intro h
      rw [updateColumnWidthsInConfig]
      simp only [hany.mpr h, if_true]
  · intro hno
    have : (widths.any fun w => decide (|w - 100 / (cfg.columns : Rat)| > 1)) = false := by
      rcases Bool.eq_false_or_eq_true
        (widths.any fun w => decide (|w - 100 / (cfg.columns : Rat)| > 1)) with ht | hf
      · exact absurd (hany.mp ht) hno
      · exact hf
    rw [updateColumnWidthsInConfig]
    simp only [this, Bool.false_eq_true, if_false]

/-- Witness for C4's amended theorem: `[70, 30]` on a 2-column config is
accepted verbatim (70 differs from the 50/50 split by 20 > 1). -/
theorem C4_amended_witness :
    ([70, 30] : List Rat) ≠ ([50, 50] : List Rat) ∧
    (updateColumnWidthsInConfig [70, 30] ⟨2, [50, 50], false⟩).columnWidths = [70, 30] := by
  refine ⟨by norm_num, ?_⟩
  exact (C4_amended ⟨2, [50, 50], false⟩ [70, 30] (by norm_num)).1.mpr
    ⟨70, by norm_num, by norm_num [lt_abs]⟩

/-- **C5**: when the current document text does not contain the wrapped
original block verbatim, the write-back replaces nothing and the document
text is returned unchanged. -/
theorem C5_writeback_miss (content originalSource newSource : String)
    (h : containsSubstrB content (wrapBlock originalSource) = false) :
    updateCodeBlockInFile content originalSource newSource = content := by
  have hidx : jsIndexOf content (wrapBlock originalSource) = none :=
    (firstIdxData_eq_none_iff _ _).mpr h
  simp only [updateCodeBlockInFile, hidx]

/-- Witness for C5 on a concrete document that does not contain the wrapped
block. -/
theorem C5_writeback_miss_witness :
    containsSubstrB "hello world" (wrapBlock "src") = false ∧
    updateCodeBlockInFile "hello world" "src" "new" = "hello world" :=
  ⟨by decide, C5_writeback_miss "hello world" "src" "new" (by decide)⟩

/-- **C6**: when the widths array has at least `max fromIndex toIndex + 1`
entries (and the indices are in range of the contents), `reorderColumn`
moves the content by remove-then-insert splice semantics and applies the
identical move to the widths array, leaving the column count unchanged (in
particular the widths are not reset to an equal split). -/
theorem C6_reorder (b : BlockInstance) (fi ti : Nat)
    (hw : max fi ti < b.config.columnWidths.length)
    (hc : max fi ti < b.columnContents.length) :
    (reorderColumn b fi ti).columnContents =
      (b.columnContents.eraseIdx fi).insertIdx ti
        (some (((b.columnContents.get? fi).getD none).getD "")) ∧
    (reorderColumn b fi ti).config.columnWidths =
      (b.config.columnWidths.eraseIdx fi).insertIdx ti
        ((b.config.columnWidths.get? fi).getD 0) ∧
    (reorderColumn b fi ti).config.columns = b.config.columns := by
  have hfi : fi < b.columnContents.length := by omega
  have hti : ti < b.columnContents.length := by omega
  have hfiw : fi < b.config.columnWidths.length := by omega
  have htiw : ti < b.config.columnWidths.length := by omega
  have hlen1 : (b.columnContents.eraseIdx fi).length = b.columnContents.length - 1 := by
    rw [← jsSpliceRemove1_eq_eraseIdx]
    exact length_jsSpliceRemove1 _ _ hfi
  have hlen2 : (b.config.columnWidths.eraseIdx fi).length = b.config.columnWidths.length - 1 := by
    rw [← jsSpliceRemove1_eq_eraseIdx]
    exact length_jsSpliceRemove1 _ _ hfiw
  refine ⟨?_, ?_, ?_⟩
  · simp only [reorderColumn]
    rw [jsSpliceRemove1_eq_eraseIdx, jsSpliceInsert_eq_insertIdx _ _ _ (by omega)]
  · simp only [reorderColumn, if_pos (by omega : b.config.columnWidths.length > max fi ti)]
    rw [jsSpliceRemove1_eq_eraseIdx, jsSpliceInsert_eq_insertIdx _ _ _ (by omega)]
  · simp only [reorderColumn]

/-- Witness for C6: `columnWidths = [20, 30, 50]`, `reorderColumn 0 2` on
columns `[c0, c1, c2]` yields columns `[c1, c2, c0]` and widths
`[30, 50, 20]`. -/
theorem C6_reorder_witness :
    max 0 2 < 3 ∧
    ((reorderColumn ⟨⟨3, [20, 30, 50], false⟩, [some "c0", some "c1", some "c2"]⟩ 0 2).columnContents
        = (([some "c0", some "c1", some "c2"].eraseIdx 0).insertIdx 2 (some "c0")) ∧
      (reorderColumn ⟨⟨3, [20, 30, 50], false⟩, [some "c0", some "c1", some "c2"]⟩ 0 2).config.columnWidths
        = ((([20, 30, 50] : List Rat).eraseIdx 0).insertIdx 2 (20 : Rat))) ∧
    columnTexts (reorderColumn ⟨⟨3, [20, 30, 50], false⟩,
      [some "c0", some "c1", some "c2"]⟩ 0 2).columnContents = ["c1", "c2", "c0"] ∧
    (reorderColumn ⟨⟨3, [20, 30, 50], false⟩,
      [some "c0", some "c1", some "c2"]⟩ 0 2).config.columnWidths = [30, 50, 20] := by
  have h := C6_reorder ⟨⟨3, [20, 30, 50], false⟩, [some "c0", some "c1", some "c2"]⟩ 0 2
    (by decide) (by decide)
  refine ⟨by decide, ⟨h.1, h.2.1⟩, by decide, ?_⟩
  rw [h.2.1]
  decide

/-- **C8**: `removeColumn` on an instance with `columnCount <= 1` is a
complete no-op (no error), and on an instance with `columnCount > 1` it
splices out the content at the index, decrements the count by one, and
resets the widths to the equal split of the new count. -/
theorem C8_removeColumn (b : BlockInstance) (i : Nat) :
    (b.config.columns ≤ 1 → removeColumn b i = b) ∧
    (1 < b.config.columns →
      (removeColumn b i).columnContents = b.columnContents.eraseIdx i ∧
      (removeColumn b i).config.columns = b.config.columns - 1 ∧
      (removeColumn b i).config.columnWidths =
        List.replicate (b.config.columns - 1).toNat
          (100 / ((b.config.columns - 1 : Int) : Rat))) := by
  constructor
  · intro h
    simp [removeColumn, h]
  · intro h
    have hc : ¬ b.config.columns ≤ 1 := by omega
    refine ⟨?_, ?_, ?_⟩
    · simp only [removeColumn, if_neg hc]
      exact jsSpliceRemove1_eq_eraseIdx _ _
    · simp [removeColumn, hc]
    · simp [removeColumn, hc]

/-- Witness for C8: a 1-column instance is left unchanged, and removing
index 1 from a 3-column instance drops the middle content, decrements the
count and resets widths. -/
theorem C8_removeColumn_witness :
    ((1 : Int) ≤ 1 → removeColumn ⟨⟨1, [100], false⟩, [some "solo"]⟩ 0 =
      ⟨⟨1, [100], false⟩, [some "solo"]⟩) ∧
    ((1 : Int) < 3 →
      (removeColumn ⟨⟨3, [20, 30, 50], false⟩, [some "a", some "b", some "c"]⟩ 1).columnContents
        = [some "a", some "b", some "c"].eraseIdx 1 ∧
      (removeColumn ⟨⟨3, [20, 30, 50], false⟩, [some "a", some "b", some "c"]⟩ 1).config.columns
        = 3 - 1 ∧
      (removeColumn ⟨⟨3, [20, 30, 50], false⟩,
        [some "a", some "b", some "c"]⟩ 1).config.columnWidths
        = List.replicate ((3 : Int) - 1).toNat (100 / (((3 : Int) - 1 : Int) : Rat))) :=
  ⟨(C8_removeColumn ⟨⟨1, [100], false⟩, [some "solo"]⟩ 0).1,
   (C8_removeColumn ⟨⟨3, [20, 30, 50], false⟩, [some "a", some "b", some "c"]⟩ 1).2⟩

/-- **C9**: `insertColumn` inserts exactly one empty content at `atIndex`
(position left/before) or `atIndex + 1` (position right/after), increments
the count by one and resets the widths to the equal split of the new
count; inserting after the last index appends. -/
theorem C9_addColumn (b : BlockInstance) (i : Nat) (pos : AddPos)
    (hi : i < b.columnContents.length) :
    (addColumn b i pos).columnContents =
      b.columnContents.insertIdx (match pos with
        | AddPos.left => i
        | AddPos.right => i + 1) (some "") ∧
    (addColumn b i pos).config.columns = b.config.columns + 1 ∧
    (addColumn b i pos).config.columnWidths =
      List.replicate (b.config.columns + 1).toNat
        (100 / ((b.config.columns + 1 : Int) : Rat)) := by
  refine ⟨?_, by simp [addColumn], by simp [addColumn]⟩
  cases pos with
  | left =>
    simp only [addColumn]
    exact jsSpliceInsert_eq_insertIdx _ _ _ (by omega)
  | right =>
    simp only [addColumn]
    exact jsSpliceInsert_eq_insertIdx _ _ _ (by omega)

/-- Witness for C9, Scenario D of the spec: `insertColumn(1, after)` on the
2-column instance `["X", "Y"]` appends an empty third column. -/
theorem C9_addColumn_witness :
    1 < 2 ∧
    (addColumn ⟨⟨2, [50, 50], false⟩, [some "X", some "Y"]⟩ 1 AddPos.right).columnContents
      = [some "X", some "Y"].insertIdx 2 (some "") ∧
    columnTexts (addColumn ⟨⟨2, [50, 50], false⟩,
      [some "X", some "Y"]⟩ 1 AddPos.right).columnContents = ["X", "Y", ""] ∧
    (addColumn ⟨⟨2, [50, 50], false⟩, [some "X", some "Y"]⟩ 1 AddPos.right).config.columns = 3 := by
  have h := C9_addColumn ⟨⟨2, [50, 50], false⟩, [some "X", some "Y"]⟩ 1 AddPos.right (by decide)
  exact ⟨by decide, h.1, by decide, by decide⟩

/-- **C10**: while still in header mode, a line that contains a colon is
consumed by the header branch even if it begins with `===column===` — it
neither switches the parser to column mode nor starts a column; once in
column mode the colon test is disabled, so every line beginning with
`===column===` starts a new column. -/
theorem C10_marker_vs_colon (st : ParseState) (line : String) :
    (st.inColumnSection = false → line.data.contains ':' = true →
      (parseStep st line).inColumnSection = false ∧
      (parseStep st line).columnContents = st.columnContents ∧
      (parseStep st line).currentColumn = st.currentColumn) ∧
    (st.inColumnSection = true → jsStartsWith line "===column===" = true →
      (parseStep st line).inColumnSection = true ∧
      (parseStep st line).currentColumn = st.currentColumn + 1 ∧
      (parseStep st line).columnContents = st.columnContents ∧
      (parseStep st line).config = st.config) := by
  constructor
  · intro hmode hcolon
    have hcond : (line.data.contains ':' && !st.inColumnSection) = true := by
      rw [hmode, hcolon]
      rfl
    simp only [parseStep, hcond, if_true]
    split
    · exact ⟨hmode, rfl, rfl⟩
    · split
      · exact ⟨hmode, rfl, rfl⟩
      · exact ⟨hmode, rfl, rfl⟩
  · intro hmode hmark
    have hcond : (line.data.contains ':' && !st.inColumnSection) = false := by
      rw [hmode]
      simp
    simp only [parseStep, hcond, Bool.false_eq_true, if_false, hmark, if_true]
    simp

/-- Witness for C10 on the line `"===column===: note"`: in header mode it is
treated as an (unrecognized) `key: value` line and starts no column; in
column mode the same line starts a new column. -/
theorem C10_marker_vs_colon_witness :
    (initParseState.inColumnSection = false ∧
      ("===column===: note" : String).data.contains ':' = true ∧
      (parseStep initParseState "===column===: note").inColumnSection = false ∧
      (parseStep initParseState "===column===: note").columnContents =
        initParseState.columnContents) ∧
    (jsStartsWith "===column===: note" "===column===" = true ∧
      (parseStep { initParseState with inColumnSection := true }
        "===column===: note").currentColumn =
        ({ initParseState with inColumnSection := true } : ParseState).currentColumn + 1) := by
  have h1 := (C10_marker_vs_colon initParseState "===column===: note").1 (by decide) (by decide)
  have h2 := (C10_marker_vs_colon { initParseState with inColumnSection := true }
    "===column===: note").2 (by decide) (by decide)
  exact ⟨⟨by decide, by decide, h1.1, h1.2.1⟩, ⟨by decide, h2.2.1⟩⟩

/-! ### Split/join machinery -/

theorem splitSepData_ne_nil (sep : Char) (l : List Char) : splitSepData sep l ≠ [] := by
  induction l with
  | nil => simp [splitSepData]
  | cons c t ih =>
    simp only [splitSepData]
    split
    · simp
    · simp

theorem splitSepData_of_not_mem (sep : Char) (l : List Char) (h : sep ∉ l) :
    splitSepData sep l = [l] := by
  induction l with
  | nil => rfl
  | cons c t ih =>
    have hc : ¬ c = sep := fun hcs => h (hcs ▸ List.mem_cons_self c t)
    have ht : sep ∉ t := fun hm => h (List.mem_cons_of_mem _ hm)
    simp [splitSepData, if_neg hc, ih ht]

theorem splitSepData_append_sep (sep : Char) (a r : List Char) (h : sep ∉ a) :
    splitSepData sep (a ++ sep :: r) = a :: splitSepData sep r := by
  induction a with
  | nil => simp [splitSepData]
  | cons c t ih =>
    have hc : ¬ c = sep := fun hcs => h (hcs ▸ List.mem_cons_self c t)
    have ht : sep ∉ t := fun hm => h (List.mem_cons_of_mem _ hm)
    simp [splitSepData, if_neg hc, ih ht]

theorem intercalSep_splitSepData (sep : Char) (l : List Char) :
    intercalSep sep (splitSepData sep l) = l := by
  induction l with
  | nil => rfl
  | cons c t ih =>
    rcases hr : splitSepData sep t with _ | ⟨x, xs⟩
    · exact absurd hr (splitSepData_ne_nil sep t)
    · rw [hr] at ih
      by_cases hc : c = sep
      · subst hc
        simp only [splitSepData, if_pos rfl, hr]
        cases xs with
        | nil =>
          simp only [intercalSep] at ih ⊢
          rw [ih]
          rfl
        | cons y ys =>
          simp only [intercalSep] at ih ⊢
          rw [ih]
          rfl
      · simp only [splitSepData, if_neg hc, hr, List.headD_cons, List.tail_cons]
        cases xs with
        | nil =>
          simp only [intercalSep] at ih ⊢
          rw [ih]
        | cons y ys =>
          simp only [intercalSep] at ih ⊢
          rw [List.cons_append, ih]

theorem not_mem_of_mem_splitSepData (sep : Char) (l seg : List Char)
    (hseg : seg ∈ splitSepData sep l) : sep ∉ seg := by
  induction l generalizing seg with
  | nil =>
    simp only [splitSepData, List.mem_singleton] at hseg
    subst hseg
    simp
  | cons c t ih =>
    rcases hr : splitSepData sep t with _ | ⟨x, xs⟩
    · exact absurd hr (splitSepData_ne_nil sep t)
    · by_cases hc : c = sep
      · subst hc
        rw [splitSepData, if_pos rfl, hr] at hseg
        rcases List.mem_cons.mp hseg with h0 | h1
        · subst h0
          simp
        · exact ih seg (hr ▸ h1)
      · rw [splitSepData, if_neg hc, hr, List.headD_cons, List.tail_cons] at hseg
        rcases List.mem_cons.mp hseg with h0 | h1
        · subst h0
          intro hmem
          rcases List.mem_cons.mp hmem with h2 | h3
          · exact hc h2.symm
          · exact ih x (hr ▸ List.mem_cons_self x xs) h3
        · exact ih seg (hr ▸ List.mem_cons_of_mem x h1)

theorem splitSepData_append_single_sep (sep : Char) (x : List Char) :
    splitSepData sep (x ++ [sep]) = splitSepData sep x ++ [[]] := by
  induction x with
  | nil => simp [splitSepData]
  | cons c t ih =>
    by_cases hc : c = sep
    · subst hc
      simp [splitSepData, ih]
    · rcases hr : splitSepData sep t with _ | ⟨y, ys⟩
      · exact absurd hr (splitSepData_ne_nil sep t)
      · simp only [List.cons_append, splitSepData, List.append_eq, if_neg hc]
        rw [ih, hr]
        simp

theorem joinAllSep_eq_intercalSep (sep : Char) (L : List (List Char)) (h : L ≠ []) :
    joinAllSep sep L = intercalSep sep L ++ [sep] := by
  induction L with
  | nil => exact absurd rfl h
  | cons x xs ih =>
    cases xs with
    | nil => simp [joinAllSep, intercalSep]
    | cons y ys =>
      have h2 : joinAllSep sep (x :: y :: ys) = (x ++ [sep]) ++ joinAllSep sep (y :: ys) := by
        simp [joinAllSep]
      rw [h2, ih (by simp)]
      show (x ++ [sep]) ++ (intercalSep sep (y :: ys) ++ [sep]) =
        (x ++ sep :: intercalSep sep (y :: ys)) ++ [sep]
      simp

theorem splitSepData_intercalSep (sep : Char) (L : List (List Char)) (hne : L ≠ [])
    (h : ∀ seg ∈ L, sep ∉ seg) : splitSepData sep (intercalSep sep L) = L := by
  induction L with
  | nil => exact absurd rfl hne
  | cons x xs ih =>
    cases xs with
    | nil =>
      simp only [intercalSep]
      exact splitSepData_of_not_mem sep x (h x (List.mem_cons_self x []))
    | cons y ys =>
      show splitSepData sep (x ++ sep :: intercalSep sep (y :: ys)) = _
      rw [splitSepData_append_sep sep x _ (h x (List.mem_cons_self _ _)),
        ih (by simp) (fun seg hs => h seg (List.mem_cons_of_mem x hs))]

/-! ### Decimal printing and reparsing

`updateSourceInFile` prints the column count with `toString`, which for a
nonnegative `Int` is `Nat.repr`, i.e. `Nat.toDigits 10`; these lemmas show
`jsParseInt` inverts it. -/

theorem toDigitsCore_append10 (fuel n : Nat) (ds : List Char) :
    Nat.toDigitsCore 10 fuel n ds = Nat.toDigitsCore 10 fuel n [] ++ ds := by
  induction fuel generalizing n ds with
  | zero => simp [Nat.toDigitsCore]
  | succ f ih =>
    simp only [Nat.toDigitsCore]
    split
    · simp
    · rw [ih (n / 10) (Nat.digitChar (n % 10) :: ds), ih (n / 10) [Nat.digitChar (n % 10)]]
      simp

theorem toDigitsCore_fuel_irrelevant (fuel fuel' n : Nat) (h : n < fuel) (h' : n < fuel') :
    Nat.toDigitsCore 10 fuel n [] = Nat.toDigitsCore 10 fuel' n [] := by
  induction fuel generalizing fuel' n with
  | zero => omega
  | succ f ih =>
    cases fuel' with
    | zero => omega
    | succ f' =>
      simp only [Nat.toDigitsCore]
      split
      · rfl
      · rename_i hdiv
        have hge : 10 ≤ n := by omega
        rw [toDigitsCore_append10 f, toDigitsCore_append10 f',
          ih f' (n / 10) (by omega) (by omega)]

theorem toDigits10_eq (n : Nat) :
    Nat.toDigits 10 n =
      if n < 10 then [Nat.digitChar n]
      else Nat.toDigits 10 (n / 10) ++ [Nat.digitChar (n % 10)] := by
  rw [Nat.toDigits]
  simp only [Nat.toDigitsCore]
  split
  · rename_i hdiv
    have h10 : n < 10 := by omega
    rw [if_pos h10, Nat.mod_eq_of_lt h10]
  · rename_i hdiv
    have hge : 10 ≤ n := by omega
    rw [if_neg (by omega)]
    rw [toDigitsCore_append10, Nat.toDigits,
      toDigitsCore_fuel_irrelevant n (n / 10 + 1) (n / 10)
        (Nat.div_lt_self (by omega) (by omega)) (Nat.lt_succ_self _)]

theorem digitChar_decDigit (k : Nat) (h : k < 10) : isDecDigit (Nat.digitChar k) = true := by
  interval_cases k <;> decide

theorem digitVal_digitChar (k : Nat) (h : k < 10) : digitVal (Nat.digitChar k) = k := by
  interval_cases k <;> decide

theorem toDigits10_all_digits (n : Nat) : ∀ c ∈ Nat.toDigits 10 n, isDecDigit c = true := by
  induction n using Nat.strong_induction_on with
  | _ n ih =>
    rw [toDigits10_eq]
    split
    · rename_i h10
      intro c hc
      simp only [List.mem_singleton] at hc
      subst hc
      exact digitChar_decDigit n h10
    · rename_i h10
      intro c hc
      rcases List.mem_append.mp hc with hmem | hlast
      · exact ih (n / 10) (Nat.div_lt_self (by omega) (by omega)) c hmem
      · simp only [List.mem_singleton] at hlast
        subst hlast
        exact digitChar_decDigit _ (Nat.mod_lt _ (by omega))

theorem toDigits10_ne_nil (n : Nat) : Nat.toDigits 10 n ≠ [] := by
  rw [toDigits10_eq]
  split
  · simp
  · simp

theorem decValData_append_one (l : List Char) (c : Char) :
    decValData (l ++ [c]) = 10 * decValData l + digitVal c := by
  simp [decValData, List.foldl_append]

theorem decValData_toDigits10 (n : Nat) : decValData (Nat.toDigits 10 n) = n := by
  induction n using Nat.strong_induction_on with
  | _ n ih =>
    rw [toDigits10_eq]
    split
    · rename_i h10
      show decValData [Nat.digitChar n] = n
      simp [decValData, digitVal_digitChar n h10]
    · rename_i h10
      rw [decValData_append_one, ih (n / 10) (Nat.div_lt_self (by omega) (by omega)),
        digitVal_digitChar _ (Nat.mod_lt _ (by omega))]
      omega

theorem natRepr_data (n : Nat) : (Nat.repr n).data = Nat.toDigits 10 n := rfl

theorem takeWhile_eq_self_of_all {α : Type} (p : α → Bool) (l : List α)
    (h : ∀ c ∈ l, p c = true) : l.takeWhile p = l := by
  induction l with
  | nil => rfl
  | cons c t ih =>
    rw [List.takeWhile_cons, if_pos (h c (List.mem_cons_self c t))]
    rw [ih fun x hx => h x (List.mem_cons_of_mem c hx)]

theorem dropWhile_eq_self_of_all {α : Type} (p : α → Bool) (l : List α)
    (h : ∀ c ∈ l, p c = false) : l.dropWhile p = l := by
  cases l with
  | nil => rfl
  | cons c t =>
    rw [List.dropWhile_cons, if_neg (by simp [h c (List.mem_cons_self c t)])]

theorem jsWhitespaceChar_eq_false_of_digit {c : Char} (h : isDecDigit c = true) :
    jsWhitespaceChar c = false := by
  simp only [isDecDigit, Bool.and_eq_true, decide_eq_true_eq] at h
  obtain ⟨h1, _⟩ := h
  simp only [jsWhitespaceChar, Bool.or_eq_false_iff, beq_eq_false_iff_ne, ne_eq]
  refine ⟨⟨⟨⟨⟨?_, ?_⟩, ?_⟩, ?_⟩, ?_⟩, ?_⟩ <;> rintro rfl <;> revert h1 <;> decide

theorem jsParseInt_all_digits (l : List Char) (hne : l ≠ [])
    (hd : ∀ c ∈ l, isDecDigit c = true) : jsParseInt ⟨l⟩ = some (decValData l : Int) := by
  obtain ⟨c, t, rfl⟩ := List.exists_cons_of_ne_nil hne
  have hc := hd c (List.mem_cons_self c t)
  have hcd : ('0' ≤ c ∧ c ≤ '9') := by
    simpa [isDecDigit] using hc
  have hws : (c :: t).dropWhile jsWhitespaceChar = c :: t := by
    rw [List.dropWhile_cons, if_neg (by simp [jsWhitespaceChar_eq_false_of_digit hc])]
  have hsgn : ¬ ((c :: t).head? = some '-' ∨ (c :: t).head? = some '+') := by
    rintro (hm | hp)
    · simp only [List.head?_cons, Option.some.injEq] at hm
      subst hm
      exact absurd hcd.1 (by decide)
    · simp only [List.head?_cons, Option.some.injEq] at hp
      subst hp
      exact absurd hcd.1 (by decide)
  have hhex : ¬ ((c :: t).head? = some '0' ∧
      ((c :: t).tail.head? = some 'x' ∨ (c :: t).tail.head? = some 'X')) := by
    rintro ⟨h0, hx | hX⟩
    · simp only [List.tail_cons] at hx
      cases t with
      | nil => simp at hx
      | cons y ys =>
        simp only [List.head?_cons, Option.some.injEq] at hx
        subst hx
        have := hd 'x' (List.mem_cons_of_mem c (List.mem_cons_self _ _))
        simp [isDecDigit] at this
    · simp only [List.tail_cons] at hX
      cases t with
      | nil => simp at hX
      | cons y ys =>
        simp only [List.head?_cons, Option.some.injEq] at hX
        subst hX
        have := hd 'X' (List.mem_cons_of_mem c (List.mem_cons_self _ _))
        simp [isDecDigit] at this
  have hne' : ¬ (c :: t).head? = some '-' := fun hm => hsgn (Or.inl hm)
  simp only [jsParseInt, String.data]
  rw [hws]
  rw [if_neg hne', if_neg hsgn, if_neg hhex,
    takeWhile_eq_self_of_all isDecDigit (c :: t) hd]
  simp

theorem jsParseInt_natRepr (n : Nat) : jsParseInt (Nat.repr n) = some (n : Int) := by
  have hdata : Nat.repr n = (⟨Nat.toDigits 10 n⟩ : String) := by
    rw [← natRepr_data]
  rw [hdata, jsParseInt_all_digits _ (toDigits10_ne_nil n) (toDigits10_all_digits n),
    decValData_toDigits10]

theorem int_toString_of_pos (n : Int) (h : 0 < n) : toString n = Nat.repr n.toNat := by
  obtain ⟨m, rfl⟩ : ∃ m : Nat, n = Int.ofNat m :=
    ⟨n.toNat, (Int.toNat_of_nonneg (le_of_lt h)).symm⟩
  rfl

/-! ### C7: the parsed column count -/

theorem parseIntOr2_ne_zero (o : Option Int) : parseIntOr2 o ≠ 0 := by
  cases o with
  | none => simp [parseIntOr2]
  | some n =>
    simp only [parseIntOr2]
    split
    · simp
    · assumption

theorem parseStep_columns_ne_zero (st : ParseState) (line : String)
    (h : st.config.columns ≠ 0) : (parseStep st line).config.columns ≠ 0 := by
  rw [parseStep]
  split
  · dsimp only
    split
    · exact parseIntOr2_ne_zero _
    · split
      · exact h
      · exact h
  · split
    · exact h
    · split
      · exact h
      · exact h

theorem foldl_parseStep_columns_ne_zero (lines : List String) :
    ∀ st : ParseState, st.config.columns ≠ 0 →
      (lines.foldl parseStep st).config.columns ≠ 0 := by
  induction lines with
  | nil => exact fun st h => h
  | cons l ls ih =>
    intro st h
    exact ih (parseStep st l) (parseStep_columns_ne_zero st l h)

/-- **C7**, counterexample.  `parseInt("-1")` is `-1`, which is truthy, so
the header `columns: -1` yields `config.columns = -1`: the parsed count is
not always an integer ≥ 1. -/
theorem C7_counterexample : (parseConfigAndContent "columns: -1").config.columns < 1 := by
  decide

/-- Effect of `parseStep` on a header-mode line of the shape
`columns:<v>` where `v` itself has no colon: the `columns` field is set to
`parseInt(trim v) || 2` when `trim v` is nonblank, and nothing happens when
it is blank. -/
theorem parseStep_columns_header (st : ParseState) (v : String)
    (hmode : st.inColumnSection = false) (hnocolon : ':' ∈ v.data → False) :
    parseStep st ("columns:" ++ v) =
      if jsTrim v = "" then st
      else { st with config := { st.config with
        columns := parseIntOr2 (jsParseInt (jsTrim v)) } } := by
  have hdata : ("columns:" ++ v).data = "columns".data ++ ':' :: v.data := by
    rw [String.data_append]
    rfl
  have hcontains : ("columns:" ++ v).data.contains ':' = true := by
    rw [hdata]
    simp
  have hcond : (("columns:" ++ v).data.contains ':' && !st.inColumnSection) = true := by
    rw [hcontains, hmode]
    rfl
  have hsplit : splitSepData ':' ("columns:" ++ v).data = ["columns".data, v.data] := by
    rw [hdata, splitSepData_append_sep ':' _ _ (by decide),
      splitSepData_of_not_mem ':' _ hnocolon]
  have hparts : (jsSplit ':' ("columns:" ++ v)).map jsTrim = ["columns", jsTrim v] := by
    simp only [jsSplit, hsplit, List.map_cons, List.map_nil]
    rfl
  simp only [parseStep, hcond, if_true, hparts, List.headD_cons]
  by_cases hv : jsTrim v = ""
  · simp [hv, jsTruthy]
  · simp [jsTruthy, hv]

/-- **C7**, amended.  The parsed `config.columns` is always a *nonzero*
integer (but can be negative, so the ≥ 1 bound fails): a header-mode line
`columns:<v>` sets it to `parseInt(v) || 2` — the parsed integer when that
is nonzero, and the default 2 when `v` is unparseable or parses to zero (a
blank `v` leaves the config untouched) — and it stays 2 when no header is
present. -/
theorem C7_amended :
    (∀ source : String, (parseConfigAndContent source).config.columns ≠ 0) ∧
    (∀ (st : ParseState) (v : String), st.inColumnSection = false → (':' ∈ v.data → False) →
      (parseStep st ("columns:" ++ v)).config.columns =
        if jsTrim v = "" then st.config.columns
        else parseIntOr2 (jsParseInt (jsTrim v))) ∧
    (parseConfigAndContent "").config.columns = 2 := by
  refine ⟨?_, ?_, by decide⟩
  · intro source
    simp only [parseConfigAndContent]
    exact foldl_parseStep_columns_ne_zero _ initParseState (by decide)
  · intro st v hmode hnocolon
    rw [parseStep_columns_header st v hmode hnocolon]
    by_cases hv : jsTrim v = ""
    · simp [hv]
    · simp [hv]

/-- Witness for C7's amended theorem: the empty source parses to the default
2, and the header line `columns: 5` sets the count to `parseInt(" 5") || 2`. -/
theorem C7_amended_witness :
    (parseConfigAndContent "columns: -1").config.columns ≠ 0 ∧
    initParseState.inColumnSection = false ∧
    (parseStep initParseState ("columns:" ++ " 5")).config.columns =
      (if jsTrim " 5" = "" then initParseState.config.columns
       else parseIntOr2 (jsParseInt (jsTrim " 5"))) :=
  ⟨C7_amended.1 "columns: -1", by decide,
    C7_amended.2.1 initParseState " 5" (by decide) (by decide)⟩

/-! ### C1: round-trip machinery — serializer side -/

/-- The lines of one column's raw text: split on newlines, dropping the
final empty segment produced by the terminating newline. -/
def contentLineData (c : String) : List (List Char) :=
  (splitSepData '\n' c.data).dropLast

/-- The lines one column contributes to the serialized source: the marker
line followed by the content's lines. -/
def blockData (c : String) : List (List Char) :=
  "===column===".data :: contentLineData c

/-- The full line decomposition of `updateSourceInFile b`: the two header
lines followed by every column's block. -/
def allLineData (b : BlockInstance) : List (List Char) :=
  ("columns: " ++ toString b.config.columns).data ::
  ("columnWidths: " ++ joinComma (b.config.columnWidths.map toFixed1)).data ::
  ((columnTexts b.columnContents).map blockData).flatten

/-- A well-formed column text: empty or newline-terminated (the serializer
ensures this for its own output), with no line that begins with the column
marker (such a line would be reparsed as a new column). -/
def WellFormedContent (c : String) : Prop :=
  (c.data = [] ∨ c.data.getLast? = some '\n') ∧
  ∀ seg ∈ splitSepData '\n' c.data, leadsWith "===column===".data seg = false

/-- A well-formed `BlockInstance`: a positive declared count matching the
number of columns, all of whose column texts are well formed. -/
def WellFormed (b : BlockInstance) : Prop :=
  1 ≤ b.config.columns ∧
  b.columnContents.length = b.config.columns.toNat ∧
  ∀ o ∈ b.columnContents, WellFormedContent (o.getD "")

instance : DecidablePred WellFormedContent := fun c => by
  unfold WellFormedContent
  infer_instance

instance : DecidablePred WellFormed := fun b => by
  unfold WellFormed
  infer_instance

theorem string_ne_empty_of_data_ne_nil {c : String} (h : ¬ c = "") : c.data ≠ [] := by
  intro hd
  exact h (by cases c with | mk d => cases hd; rfl)

theorem jsEndsWith_newline {c : String} (h : c.data.getLast? = some '\n') :
    jsEndsWith c "\n" = true := by
  rw [jsEndsWith]
  rcases hr : c.data.reverse with _ | ⟨x, t⟩
  · rw [← List.head?_reverse, hr] at h
    simp at h
  · rw [← List.head?_reverse, hr] at h
    simp only [List.head?_cons, Option.some.injEq] at h
    subst h
    rfl

theorem joinAllSep_contentLineData (c : String)
    (h : c.data = [] ∨ c.data.getLast? = some '\n') :
    joinAllSep '\n' (contentLineData c) = c.data := by
  rcases h with h | h
  · rw [contentLineData, h]
    rfl
  · have hne : c.data ≠ [] := by
      intro hd
      rw [hd] at h
      simp at h
    have hdecomp : c.data.dropLast ++ [c.data.getLast hne] = c.data :=
      List.dropLast_append_getLast hne
    have hlast : c.data.getLast hne = '\n' := by
      have := List.getLast?_eq_getLast c.data hne
      rw [h] at this
      exact (Option.some.injEq _ _).mp this.symm
    rw [hlast] at hdecomp
    rw [contentLineData, ← hdecomp, splitSepData_append_single_sep, List.dropLast_concat,
      joinAllSep_eq_intercalSep _ _ (splitSepData_ne_nil _ _), intercalSep_splitSepData]

theorem joinAllSep_append (sep : Char) (A B : List (List Char)) :
    joinAllSep sep (A ++ B) = joinAllSep sep A ++ joinAllSep sep B := by
  simp [joinAllSep]

theorem serializeColumnStep_data (acc : String) (o : Option String)
    (h : WellFormedContent (o.getD "")) :
    (serializeColumnStep acc o).data = acc.data ++ joinAllSep '\n' (blockData (o.getD "")) := by
  have hjoin : joinAllSep '\n' (blockData (o.getD "")) =
      ("===column===".data ++ ['\n']) ++ (o.getD "").data := by
    rw [blockData, joinAllSep, List.map_cons, List.flatten_cons, ← joinAllSep,
      joinAllSep_contentLineData _ h.1]
  rw [hjoin]
  cases o with
  | none =>
    simp [serializeColumnStep, String.data_append]
  | some c =>
    by_cases hc : c == ""
    · have : c = "" := by simpa using hc
      subst this
      simp [serializeColumnStep, String.data_append]
    · have hcs : ¬ c = "" := by simpa using hc
      have hlast : c.data.getLast? = some '\n' := by
        rcases h.1 with hd | hd
        · exact absurd hd (string_ne_empty_of_data_ne_nil hcs)
        · exact hd
      simp only [serializeColumnStep, hc, Bool.false_eq_true, if_false,
        jsEndsWith_newline hlast, if_true]
      simp [String.data_append]

theorem foldl_serializeColumnStep (contents : List (Option String)) :
    ∀ acc : String, (∀ o ∈ contents, WellFormedContent (o.getD "")) →
      (contents.foldl serializeColumnStep acc).data =
        acc.data ++ joinAllSep '\n' (((columnTexts contents).map blockData).flatten) := by
  induction contents with
  | nil =>
    intro acc _
    simp [columnTexts, joinAllSep]
  | cons o rest ih =>
    intro acc hwf
    rw [List.foldl_cons,
      ih (serializeColumnStep acc o) (fun x hx => hwf x (List.mem_cons_of_mem o hx)),
      serializeColumnStep_data acc o (hwf o (List.mem_cons_self o rest))]
    simp [columnTexts, joinAllSep_append, List.append_assoc]

theorem padTruncateContents_id (l : List (Option String)) (n : Int)
    (hlen : l.length = n.toNat) (hn : 1 ≤ n) : padTruncateContents l n = l := by
  simp only [padTruncateContents, hlen, Nat.sub_self, List.replicate_zero, List.append_nil]
  rw [if_neg (by omega)]

theorem getLast?_concat_newline (x : List Char) : (x ++ ['\n']).getLast? = some '\n' := by
  simp

theorem joinAllSep_cons (sep : Char) (x : List Char) (L : List (List Char)) :
    joinAllSep sep (x :: L) = x ++ sep :: joinAllSep sep L := by
  simp [joinAllSep]

theorem strip_of_data (s : String) (L : List (List Char))
    (hdata : s.data = intercalSep '\n' L ++ ['\n']) :
    (if jsEndsWith s "\n" = true then (⟨s.data.dropLast⟩ : String) else s).data =
      intercalSep '\n' L := by
  rw [if_pos (jsEndsWith_newline (by rw [hdata]; exact getLast?_concat_newline _))]
  show s.data.dropLast = _
  rw [hdata, List.dropLast_concat]

/-- Under well-formedness, the serialized source is exactly the
newline-intercalation of its line decomposition. -/
theorem updateSourceInFile_data (b : BlockInstance) (h : WellFormed b) :
    (updateSourceInFile b).data = intercalSep '\n' (allLineData b) := by
  obtain ⟨hN, hlen, hwf⟩ := h
  have hs2 : ((padTruncateContents b.columnContents b.config.columns).foldl serializeColumnStep
      ("columns: " ++ toString b.config.columns ++ "\n" ++ "columnWidths: " ++
        joinComma (b.config.columnWidths.map toFixed1) ++ "\n")).data =
      intercalSep '\n' (allLineData b) ++ ['\n'] := by
    rw [padTruncateContents_id _ _ hlen hN, foldl_serializeColumnStep _ _ hwf,
      ← joinAllSep_eq_intercalSep '\n' _ (by simp [allLineData]),
      allLineData, joinAllSep_cons, joinAllSep_cons]
    have hnl : ("\n" : String).data = ['\n'] := rfl
    simp [String.data_append, hnl]
  exact strip_of_data _ _ hs2

/-! ### C1: round-trip machinery — the lines contain no newline -/

theorem isDecDigit_ne_newline {c : Char} (h : isDecDigit c = true) : c ≠ '\n' := by
  rintro rfl
  exact absurd h (by decide)

theorem natRepr_no_newline (k : Nat) : ∀ c ∈ (Nat.repr k).data, c ≠ '\n' := by
  rw [natRepr_data]
  intro c hc
  exact isDecDigit_ne_newline (toDigits10_all_digits k c hc)

theorem toFixed1_no_newline (q : Rat) : ∀ c ∈ (toFixed1 q).data, c ≠ '\n' := by
  intro c hc
  simp only [toFixed1, String.data_append, List.mem_append] at hc
  rcases hc with ((h1 | h2) | h3) | h4
  · split at h1
    · have : c = '-' := by simpa using h1
      subst this
      decide
    · simp at h1
  · exact natRepr_no_newline _ c h2
  · have : c = '.' := by simpa using h3
    subst this
    decide
  · exact natRepr_no_newline _ c h4

theorem joinComma_no_newline (L : List String) (h : ∀ s ∈ L, ∀ c ∈ s.data, c ≠ '\n') :
    ∀ c ∈ (joinComma L).data, c ≠ '\n' := by
  induction L with
  | nil =>
    intro c hc
    have hempty : (joinComma ([] : List String)).data = [] := rfl
    rw [hempty] at hc
    exact absurd hc (List.not_mem_nil c)
  | cons x xs ih =>
    cases xs with
    | nil => exact fun c hc => h x (List.mem_cons_self x []) c hc
    | cons y ys =>
      intro c hc
      have hjc : joinComma (x :: y :: ys) = x ++ "," ++ joinComma (y :: ys) := rfl
      rw [hjc] at hc
      simp only [String.data_append, List.mem_append] at hc
      rcases hc with (h1 | h2) | h3
      · exact h x (List.mem_cons_self _ _) c h1
      · have : c = ',' := by simpa using h2
        subst this
        decide
      · exact ih (fun s hs => h s (List.mem_cons_of_mem x hs)) c h3

theorem allLineData_no_newline (b : BlockInstance) (hN : 1 ≤ b.config.columns) :
    ∀ seg ∈ allLineData b, '\n' ∉ seg := by
  intro seg hseg
  rw [allLineData] at hseg
  rcases List.mem_cons.mp hseg with h1 | hseg2
  · subst h1
    rw [String.data_append]
    intro hmem
    rcases List.mem_append.mp hmem with hh | hd
    · exact absurd hh (by decide)
    · rw [int_toString_of_pos _ (by omega)] at hd
      exact natRepr_no_newline _ '\n' hd rfl
  · rcases List.mem_cons.mp hseg2 with h2 | hblocks
    · subst h2
      rw [String.data_append]
      intro hmem
      rcases List.mem_append.mp hmem with hh | hd
      · exact absurd hh (by decide)
      · refine joinComma_no_newline _ ?_ '\n' hd rfl
        intro s hs c hc
        rcases List.mem_map.mp hs with ⟨q, _, rfl⟩
        exact toFixed1_no_newline q c hc
    · rcases List.mem_flatten.mp hblocks with ⟨L, hL, hsegL⟩
      rcases List.mem_map.mp hL with ⟨c, _, rfl⟩
      rcases List.mem_cons.mp hsegL with hm | hcontent
      · subst hm
        decide
      · exact not_mem_of_mem_splitSepData '\n' _ _
          (List.dropLast_subset _ hcontent)

theorem jsSplit_updateSourceInFile (b : BlockInstance) (h : WellFormed b) :
    jsSplit '\n' (updateSourceInFile b) = (allLineData b).map (fun l => (⟨l⟩ : String)) := by
  rw [jsSplit, updateSourceInFile_data b h,
    splitSepData_intercalSep '\n' _ (by simp [allLineData]) (allLineData_no_newline b h.1)]

/-! ### C1: round-trip machinery — parser side -/

theorem parseStep_marker (st : ParseState) :
    parseStep st "===column===" =
      { st with inColumnSection := true, currentColumn := st.currentColumn + 1 } := by
  have h1 : ("===column===" : String).data.contains ':' = false := by decide
  have h2 : jsStartsWith "===column===" "===column===" = true := by decide
  simp only [parseStep, h1, Bool.false_and, Bool.false_eq_true, if_false, h2, if_true]

theorem parseStep_content (st : ParseState) (line : String)
    (hin : st.inColumnSection = true)
    (hmark : leadsWith "===column===".data line.data = false) :
    parseStep st line = { st with columnContents :=
      (jsSetIndexI st.columnContents st.currentColumn
        (((jsGetIndexI st.columnContents st.currentColumn).getD "") ++ line ++ "\n")) } := by
  have h2 : jsStartsWith line "===column===" = false := hmark
  simp only [parseStep, hin, Bool.not_true, Bool.and_false, Bool.false_eq_true, if_false,
    h2, if_true]

theorem jsSetIndexN_of_length_le {α : Type} (B : List (Option α)) (j : Nat) (v : α)
    (h : B.length ≤ j) :
    jsSetIndexN B j v = B ++ List.replicate (j - B.length) none ++ [some v] := by
  rw [jsSetIndexN, if_neg (by omega)]

theorem jsGetIndexI_jsSetIndexN {α : Type} (B : List (Option α)) (j : Nat) (v : α) :
    jsGetIndexI (jsSetIndexN B j v) (j : Int) = some v := by
  rw [jsGetIndexI, if_neg (by omega), Int.toNat_ofNat, jsSetIndexN]
  split
  · rw [List.get?_eq_getElem?, List.getElem?_set_self (by omega)]
    rfl
  · rw [List.append_assoc, List.get?_append_right (by omega),
      List.get?_append_right (by simp)]
    simp

theorem jsSetIndexN_jsSetIndexN {α : Type} (B : List (Option α)) (j : Nat) (v w : α) :
    jsSetIndexN (jsSetIndexN B j v) j w = jsSetIndexN B j w := by
  by_cases hj : j < B.length
  · have hlv : jsSetIndexN B j v = B.set j (some v) := by rw [jsSetIndexN, if_pos hj]
    have hlw : jsSetIndexN B j w = B.set j (some w) := by rw [jsSetIndexN, if_pos hj]
    rw [hlv, hlw, jsSetIndexN, if_pos (by simpa using hj), List.set_set]
  · have hle : B.length ≤ j := by omega
    rw [jsSetIndexN_of_length_le B j v hle, jsSetIndexN_of_length_le B j w hle,
      jsSetIndexN, if_pos (by simp; omega)]
    rw [List.set_append, if_neg (by simp; omega)]
    have hk : j - (B ++ List.replicate (j - B.length) (none : Option α)).length = 0 := by
      simp
      omega
    rw [hk]
    rfl

theorem jsGetIndexI_of_length_le {α : Type} (B : List (Option α)) (j : Nat)
    (h : B.length ≤ j) : jsGetIndexI B (j : Int) = none := by
  rw [jsGetIndexI, if_neg (by omega), Int.toNat_ofNat]
  rw [List.get?_eq_getElem?, List.getElem?_eq_none (by omega)]
  rfl

theorem jsSetIndexI_ofNat {α : Type} (l : List (Option α)) (j : Nat) (v : α) :
    jsSetIndexI l (j : Int) v = jsSetIndexN l j v := by
  rw [jsSetIndexI, if_neg (by omega), Int.toNat_ofNat]

theorem string_append_empty_data (v : String) (l : List Char) (h : l = []) :
    v ++ (⟨l⟩ : String) = v := by
  subst h
  apply String.ext
  rw [String.data_append]
  simp

/-- Folding the parser over the content lines of a column, starting from a
state whose buffer at `j` holds `v`, appends the joined lines to `v`. -/
theorem foldl_contentLines (ls : List (List Char)) :
    (∀ l ∈ ls, leadsWith "===column===".data l = false) →
    ∀ (st : ParseState) (B : List (Option String)) (j : Nat) (v : String),
      B.length ≤ j →
      st.inColumnSection = true →
      st.currentColumn = (j : Int) →
      st.columnContents = jsSetIndexN B j v →
      (ls.map fun l => (⟨l⟩ : String)).foldl parseStep st =
        { st with columnContents := jsSetIndexN B j (v ++ (⟨joinAllSep '\n' ls⟩ : String)) } := by
  induction ls with
  | nil =>
    intro _ st B j v hB hin hcur hset
    rw [List.map_nil, List.foldl_nil,
      string_append_empty_data v _ (by rw [joinAllSep]; rfl), ← hset]
  | cons l ls' ih =>
    intro hmark st B j v hB hin hcur hset
    rw [List.map_cons, List.foldl_cons]
    have hstep : parseStep st (⟨l⟩ : String) =
        { st with columnContents := jsSetIndexN B j (v ++ (⟨l⟩ : String) ++ "\n") } := by
      rw [parseStep_content st _ hin (hmark l (List.mem_cons_self l ls')), hset, hcur,
        jsSetIndexI_ofNat, jsGetIndexI_jsSetIndexN, jsSetIndexN_jsSetIndexN]
      rfl
    rw [hstep]
    rw [ih (fun x hx => hmark x (List.mem_cons_of_mem l hx))
      { st with columnContents := jsSetIndexN B j (v ++ (⟨l⟩ : String) ++ "\n") }
      B j (v ++ (⟨l⟩ : String) ++ "\n") hB hin hcur rfl]
    have hv : v ++ (⟨l⟩ : String) ++ "\n" ++ (⟨joinAllSep '\n' ls'⟩ : String) =
        v ++ (⟨joinAllSep '\n' (l :: ls')⟩ : String) := by
      apply String.ext
      rw [joinAllSep_cons]
      simp [String.data_append]
    rw [hv]

/-- Folding the parser over one column's block (marker plus content lines)
writes that column's text at index `j` (when nonempty) and advances the
current column. -/
theorem foldl_block (c : String) (hwfc : WellFormedContent c) (st : ParseState) (j : Nat)
    (hcur : st.currentColumn = (j : Int) - 1) (hB : st.columnContents.length ≤ j) :
    ((blockData c).map fun l => (⟨l⟩ : String)).foldl parseStep st =
      { st with
        columnContents := if c = "" then st.columnContents
          else jsSetIndexN st.columnContents j c,
        currentColumn := (j : Int),
        inColumnSection := true } := by
  rw [blockData, List.map_cons, List.foldl_cons]
  have hmk : ((⟨"===column===".data⟩ : String)) = "===column===" := rfl
  rw [hmk, parseStep_marker]
  have hcur1 : st.currentColumn + 1 = (j : Int) := by omega
  by_cases hc : c = ""
  · subst hc
    have hempty : contentLineData "" = [] := rfl
    rw [hempty, List.map_nil, List.foldl_nil, if_pos rfl, hcur1]
  · have hdne : c.data ≠ [] := string_ne_empty_of_data_ne_nil hc
    obtain ⟨l0, ls', hls⟩ : ∃ l0 ls', contentLineData c = l0 :: ls' := by
      rcases hq : contentLineData c with _ | ⟨l0, ls'⟩
      · exfalso
        have hj := joinAllSep_contentLineData c hwfc.1
        rw [hq] at hj
        exact hdne (by rw [← hj]; rfl)
      · exact ⟨_, _, rfl⟩
    have hsub : ∀ l ∈ contentLineData c, leadsWith "===column===".data l = false :=
      fun l hl => hwfc.2 l (List.dropLast_subset _ hl)
    rw [hls, List.map_cons, List.foldl_cons]
    have hstep1 : parseStep
        { st with inColumnSection := true, currentColumn := st.currentColumn + 1 }
        (⟨l0⟩ : String) =
        { st with
          inColumnSection := true
          currentColumn := st.currentColumn + 1
          columnContents :=
            jsSetIndexN st.columnContents j ("" ++ (⟨l0⟩ : String) ++ "\n") } := by
      rw [parseStep_content _ _ rfl (hsub l0 (by rw [hls]; exact List.mem_cons_self _ _))]
      dsimp only
      rw [hcur1, jsSetIndexI_ofNat, jsGetIndexI_of_length_le _ _ hB]
      rfl
    rw [hstep1]
    rw [foldl_contentLines ls'
      (fun x hx => hsub x (by rw [hls]; exact List.mem_cons_of_mem l0 hx))
      _ st.columnContents j ("" ++ (⟨l0⟩ : String) ++ "\n") hB rfl hcur1 rfl]
    rw [if_neg hc, hcur1]
    congr 2
    apply String.ext
    have hjoin : joinAllSep '\n' (contentLineData c) = c.data :=
      joinAllSep_contentLineData c hwfc.1
    rw [hls, joinAllSep_cons] at hjoin
    simp [String.data_append, hjoin]

/-- The buffer produced by writing columns `cs` at successive indices
starting from `j` (empty columns write nothing, mirroring the sparse
`columnContents` array). -/
def bufAppend : List (Option String) → Nat → List String → List (Option String)
  | B, _, [] => B
  | B, j, c :: cs => bufAppend (if c = "" then B else jsSetIndexN B j c) (j + 1) cs

theorem bufAppend_length_le (cs : List String) :
    ∀ (B : List (Option String)) (j : Nat), B.length ≤ j →
      (bufAppend B j cs).length ≤ j + cs.length := by
  induction cs with
  | nil =>
    intro B j hB
    simpa [bufAppend] using hB
  | cons c cs' ih =>
    intro B j hB
    rw [bufAppend]
    have hB' : (if c = "" then B else jsSetIndexN B j c).length ≤ j + 1 := by
      split
      · omega
      · rw [length_jsSetIndexN]
        omega
    have := ih _ (j + 1) hB'
    simpa [Nat.add_assoc, Nat.add_comm 1 cs'.length] using this

/-- Folding the parser over all column blocks writes each column's text in
turn. -/
theorem foldl_blocks (cs : List String) :
    (∀ c ∈ cs, WellFormedContent c) →
    ∀ (st : ParseState) (j : Nat),
      st.currentColumn = (j : Int) - 1 →
      st.columnContents.length ≤ j →
      (((cs.map blockData).flatten).map fun l => (⟨l⟩ : String)).foldl parseStep st =
        { st with
          columnContents := bufAppend st.columnContents j cs,
          currentColumn := (j : Int) + cs.length - 1,
          inColumnSection := if cs.isEmpty then st.inColumnSection else true } := by
  induction cs with
  | nil =>
    intro _ st j hcur hB
    simp only [List.map_nil, List.flatten_nil, List.foldl_nil, bufAppend, List.length_nil,
      List.isEmpty_nil, if_true]
    rw [show (j : Int) + (0 : Nat) - 1 = (j : Int) - 1 by omega, ← hcur]
  | cons c cs' ih =>
    intro hwf st j hcur hB
    rw [List.map_cons, List.flatten_cons, List.map_append, List.foldl_append]
    rw [foldl_block c (hwf c (List.mem_cons_self c cs')) st j hcur hB]
    have hB' : (if c = "" then st.columnContents
        else jsSetIndexN st.columnContents j c).length ≤ j + 1 := by
      split
      · omega
      · rw [length_jsSetIndexN]
        omega
    have hcurnext : (j : Int) = ((j + 1 : Nat) : Int) - 1 := by
      push_cast
      ring
    rw [ih (fun x hx => hwf x (List.mem_cons_of_mem c hx)) _ (j + 1) hcurnext hB']
    dsimp only
    rw [show bufAppend st.columnContents j (c :: cs') =
      bufAppend (if c = "" then st.columnContents else jsSetIndexN st.columnContents j c)
        (j + 1) cs' from rfl]
    have hlen2 : ((j + 1 : Nat) : Int) + (cs'.length : Int) - 1 =
        (j : Int) + ((c :: cs').length : Int) - 1 := by
      push_cast [List.length_cons]
      ring
    rw [hlen2]
    simp

/-! ### C1: reading the parsed buffer back as column texts -/

/-- The column texts of a buffer padded with `''` columns up to `n`. -/
def readTexts (l : List (Option String)) (n : Nat) : List String :=
  columnTexts (l ++ List.replicate (n - l.length) (some ""))

theorem trimData_of_all_digits (l : List Char) (h : ∀ c ∈ l, isDecDigit c = true) :
    trimData l = l := by
  rw [trimData,
    dropWhile_eq_self_of_all _ _ (fun c hc => jsWhitespaceChar_eq_false_of_digit (h c hc)),
    dropWhile_eq_self_of_all _ _ (fun c hc =>
      jsWhitespaceChar_eq_false_of_digit (h c (List.mem_reverse.mp hc))),
    List.reverse_reverse]

theorem readTexts_succ (l : List (Option String)) (n : Nat) (h : l.length ≤ n) :
    readTexts l (n + 1) = readTexts l n ++ [""] := by
  rw [readTexts, readTexts, show n + 1 - l.length = (n - l.length) + 1 by omega,
    List.replicate_succ', ← List.append_assoc]
  simp [columnTexts]

theorem readTexts_write (X : List (Option String)) (j : Nat) (o : Option String)
    (h : X.length ≤ j) :
    readTexts (X ++ List.replicate (j - X.length) none ++ [o]) (j + 1) =
      readTexts X j ++ [o.getD ""] := by
  have hlen : (X ++ List.replicate (j - X.length) (none : Option String) ++ [o]).length
      = j + 1 := by
    simp
    omega
  rw [readTexts, hlen, Nat.sub_self, List.replicate_zero, List.append_nil, readTexts]
  simp [columnTexts]

theorem collapseEntry_some_ne (c : String) (hc : ¬ c = "") :
    collapseEntry (some c) = some (collapseTrailing c) := by
  simp [collapseEntry, hc]

theorem bufAppend_readTexts (cs : List String) :
    ∀ (B : List (Option String)) (j : Nat), B.length ≤ j →
      readTexts ((bufAppend B j cs).map collapseEntry) (j + cs.length) =
        readTexts (B.map collapseEntry) j ++ cs.map collapseTrailing := by
  induction cs with
  | nil =>
    intro B j hB
    simp [bufAppend]
  | cons c cs' ih =>
    intro B j hB
    rw [bufAppend, show j + (c :: cs').length = (j + 1) + cs'.length by
      rw [List.length_cons]; omega]
    have hB' : (if c = "" then B else jsSetIndexN B j c).length ≤ j + 1 := by
      split
      · omega
      · rw [length_jsSetIndexN]
        omega
    rw [ih _ (j + 1) hB']
    have hone : readTexts ((if c = "" then B else jsSetIndexN B j c).map collapseEntry)
        (j + 1) = readTexts (B.map collapseEntry) j ++ [collapseTrailing c] := by
      by_cases hc : c = ""
      · subst hc
        rw [if_pos rfl, readTexts_succ _ _ (by rw [List.length_map]; omega)]
        rfl
      · rw [if_neg hc, jsSetIndexN_of_length_le B j c hB]
        have hmap : (B ++ List.replicate (j - B.length) none ++ [some c]).map collapseEntry =
            B.map collapseEntry ++
              List.replicate (j - (B.map collapseEntry).length) none ++
              [some (collapseTrailing c)] := by
          rw [List.map_append, List.map_append, List.map_replicate, List.length_map,
            List.map_cons, List.map_nil, collapseEntry_some_ne c hc]
          rfl
        rw [hmap, readTexts_write _ _ _ (by rw [List.length_map]; omega)]
        rfl
    rw [hone]
    rw [List.map_cons]
    simp

/-! ### C1: processing of the two header lines -/

/-- A header-mode line containing a colon only ever touches the config. -/
theorem parseStep_header_fields (st : ParseState) (line : String)
    (hmode : st.inColumnSection = false) (hcolon : line.data.contains ':' = true) :
    (parseStep st line).columnContents = st.columnContents ∧
    (parseStep st line).currentColumn = st.currentColumn ∧
    (parseStep st line).inColumnSection = false := by
  have hcond : (line.data.contains ':' && !st.inColumnSection) = true := by
    rw [hmode, hcolon]
    rfl
  simp only [parseStep, hcond, if_true]
  split
  · exact ⟨rfl, rfl, hmode⟩
  · split
    · exact ⟨rfl, rfl, hmode⟩
    · exact ⟨rfl, rfl, hmode⟩

/-- A line whose first `:`-segment does not trim to `columns` never changes
the column count. -/
theorem parseStep_columns_of_headKey (st : ParseState) (line : String)
    (hkey : jsTrim ⟨(splitSepData ':' line.data).headD []⟩ ≠ "columns") :
    (parseStep st line).config.columns = st.config.columns := by
  rw [parseStep]
  split
  · dsimp only
    have hk : (List.map jsTrim (jsSplit ':' line)).headD "" =
        jsTrim ⟨(splitSepData ':' line.data).headD []⟩ := by
      rw [jsSplit]
      rcases hq : splitSepData ':' line.data with _ | ⟨x, xs⟩
      · exact absurd hq (splitSepData_ne_nil _ _)
      · simp [hq]
    split
    · rename_i hcond
      exfalso
      have h1 := ((Bool.and_eq_true _ _).mp hcond).1
      exact hkey (hk ▸ eq_of_beq h1)
    · split
      · rfl
      · rfl
  · split
    · rfl
    · split
      · rfl
      · rfl

theorem trimData_cons_space (l : List Char) : trimData (' ' :: l) = trimData l := by
  rw [trimData, trimData, List.dropWhile_cons,
    if_pos (show jsWhitespaceChar ' ' = true from rfl)]

/-- Processing the serialized `columns: N` header line sets the count to
`N` (for positive `N`) and touches nothing else. -/
theorem parseStep_line1 (st : ParseState) (n : Int) (hmode : st.inColumnSection = false)
    (hn : 1 ≤ n) :
    parseStep st ("columns: " ++ toString n) =
      { st with config := { st.config with columns := n } } := by
  have hline1 : ("columns: " ++ toString n) = "columns:" ++ (" " ++ toString n) := by
    apply String.ext
    rw [String.data_append, String.data_append, String.data_append,
      show ("columns: " : String).data = ("columns:" : String).data ++ (" " : String).data
        from rfl, List.append_assoc]
  have hnocolon : ':' ∈ (" " ++ toString n).data → False := by
    rw [String.data_append, int_toString_of_pos _ (by omega), natRepr_data]
    intro hmem
    rcases List.mem_append.mp hmem with h1 | h2
    · rw [show (" " : String).data = [' '] from rfl] at h1
      simp at h1
    · exact absurd (toDigits10_all_digits _ ':' h2) (by decide)
  have hdata : (" " ++ toString n).data = ' ' :: Nat.toDigits 10 n.toNat := by
    rw [String.data_append, int_toString_of_pos _ (by omega), natRepr_data]
    rfl
  have hv : jsTrim (" " ++ toString n) = toString n := by
    apply String.ext
    show trimData (" " ++ toString n).data = (toString n).data
    rw [hdata, trimData_cons_space, trimData_of_all_digits _ (toDigits10_all_digits _),
      int_toString_of_pos _ (by omega), natRepr_data]
  have hvne : jsTrim (" " ++ toString n) ≠ "" := by
    rw [hv]
    intro he
    have hd : (toString n).data = [] := by rw [he]
    rw [int_toString_of_pos n (by omega), natRepr_data] at hd
    exact toDigits10_ne_nil n.toNat hd
  rw [hline1, parseStep_columns_header st _ hmode hnocolon, if_neg hvne, hv,
    int_toString_of_pos _ (by omega), jsParseInt_natRepr,
    show ((n.toNat : Int)) = n from Int.toNat_of_nonneg (by omega),
    show parseIntOr2 (some n) = n from by simp [parseIntOr2, show ¬ n = 0 by omega]]

/-- **C1**: the parse/serialize round trip.  For every well-formed
`BlockInstance`, parsing the serialized form reproduces the column count
exactly and the column texts up to the 3-or-more-trailing-newline
collapse. -/
theorem C1_roundtrip (b : BlockInstance) (h : WellFormed b) :
    (parseConfigAndContent (updateSourceInFile b)).config.columns = b.config.columns ∧
    columnTexts (parseConfigAndContent (updateSourceInFile b)).columnContents =
      (columnTexts b.columnContents).map collapseTrailing := by
  obtain ⟨hN, hlen, hwf⟩ := h
  have hwfcs : ∀ c ∈ columnTexts b.columnContents, WellFormedContent c := by
    intro c hc
    rcases List.mem_map.mp hc with ⟨o, ho, rfl⟩
    exact hwf o ho
  have hsplit := jsSplit_updateSourceInFile b ⟨hN, hlen, hwf⟩
  rw [allLineData] at hsplit
  simp only [List.map_cons] at hsplit
  have hstep1 : parseStep initParseState
      (⟨("columns: " ++ toString b.config.columns).data⟩ : String) =
      { initParseState with config :=
        { initParseState.config with columns := b.config.columns } } := by
    show parseStep initParseState ("columns: " ++ toString b.config.columns) = _
    exact parseStep_line1 initParseState b.config.columns rfl hN
  have hl2data : ("columnWidths: " ++ joinComma (b.config.columnWidths.map toFixed1)).data =
      "columnWidths".data ++ ':' ::
        (' ' :: (joinComma (b.config.columnWidths.map toFixed1)).data) := by
    rw [String.data_append]
    rfl
  have hcontains2 : ("columnWidths: " ++
      joinComma (b.config.columnWidths.map toFixed1)).data.contains ':' = true := by
    rw [hl2data]
    simp
  have hhead2 : jsTrim ⟨(splitSepData ':'
      ("columnWidths: " ++ joinComma (b.config.columnWidths.map toFixed1)).data).headD []⟩ ≠
      "columns" := by
    rw [hl2data, splitSepData_append_sep ':' _ _ (by decide), List.headD_cons]
    decide
  have h2fields := parseStep_header_fields
    { initParseState with config := { initParseState.config with columns := b.config.columns } }
    (⟨("columnWidths: " ++ joinComma (b.config.columnWidths.map toFixed1)).data⟩ : String)
    rfl hcontains2
  have h2cols := parseStep_columns_of_headKey
    { initParseState with config := { initParseState.config with columns := b.config.columns } }
    (⟨("columnWidths: " ++ joinComma (b.config.columnWidths.map toFixed1)).data⟩ : String)
    hhead2
  have hblocks := foldl_blocks (columnTexts b.columnContents) hwfcs
    (parseStep
      { initParseState with config := { initParseState.config with columns := b.config.columns } }
      (⟨("columnWidths: " ++ joinComma (b.config.columnWidths.map toFixed1)).data⟩ : String))
    0 (by rw [h2fields.2.1]; dsimp only [initParseState]; omega)
    (by rw [h2fields.1]; simp [initParseState])
  simp only [parseConfigAndContent, hsplit, List.foldl_cons, hstep1, hblocks]
  constructor
  · dsimp only
    rw [h2cols]
  · dsimp only
    rw [h2cols, h2fields.1]
    dsimp only [initParseState]
    have hcount : b.config.columns.toNat = 0 + (columnTexts b.columnContents).length := by
      rw [columnTexts, List.length_map]
      omega
    rw [hcount]
    have hread := bufAppend_readTexts (columnTexts b.columnContents) [] 0 (le_refl 0)
    rw [readTexts, readTexts] at hread
    rw [hread]
    simp [columnTexts]

/-- Witness for C1 on a concrete well-formed 2-column instance. -/
theorem C1_roundtrip_witness :
    WellFormed ⟨⟨2, [50, 50], false⟩, [some "A\n", some "B\n"]⟩ ∧
    ((parseConfigAndContent (updateSourceInFile
        ⟨⟨2, [50, 50], false⟩, [some "A\n", some "B\n"]⟩)).config.columns =
        (⟨⟨2, [50, 50], false⟩, [some "A\n", some "B\n"]⟩ : BlockInstance).config.columns ∧
      columnTexts (parseConfigAndContent (updateSourceInFile
        ⟨⟨2, [50, 50], false⟩, [some "A\n", some "B\n"]⟩)).columnContents =
        (columnTexts (⟨⟨2, [50, 50], false⟩,
          [some "A\n", some "B\n"]⟩ : BlockInstance).columnContents).map collapseTrailing) :=
  ⟨by decide, C1_roundtrip ⟨⟨2, [50, 50], false⟩, [some "A\n", some "B\n"]⟩ (by decide)⟩

end MultiColumn
